import Mathlib

/-!
Verification of the evm-scanner event-scanning service.

The Go sources are shallowly embedded: pure functions become Lean
functions, the stateful pieces (scan loop, node health state, retry
loops) become explicit state passing, machine integers (`uint64`,
`int64`) become `Nat`/`Int` with explicit wrapping (`% 2^64`) where the
source can overflow, and time is abstracted to integer instants passed
to the functions that read the clock.
-/

namespace EvmScanner

/-! ### `uint64` arithmetic

Go `uint64` values are represented by `Nat` smaller than `2^64`;
`add64`/`sub64` are Go's wrapping addition and subtraction. -/

def U64 : Nat := 18446744073709551616

/-- Wrapping `uint64` addition. -/
def add64 (a b : Nat) : Nat := (a + b) % U64

/-- Wrapping `uint64` subtraction (for representable `a`, `b`). -/
def sub64 (a b : Nat) : Nat := (a + (U64 - b % U64)) % U64

/-! ### Scanner.determineStartBlock (src/pkg/scanner/scanner.go) -/

/-- The startup-relevant part of `scanner.Config`: `startBlock`,
`forceStart`, `rewind` (the dynamic rewind from head) and
`cursorRewind` (the safety rewind from a saved cursor). -/
structure StartCfg where
  startBlock : Nat
  forceStart : Bool
  rewind : Nat
  cursorRewind : Nat
deriving DecidableEq

/-- Embedding of `Scanner.determineStartBlock`.  `saved` is the value
returned by `store.LoadCursor` and `head` the value returned by
`client.BlockNumber` (consulted only by strategy 4).  The error returns
of those two calls are not modelled: the claim is about the successful
values. -/
def determineStartBlock (cfg : StartCfg) (saved head : Nat) : Nat :=
  if cfg.forceStart ∧ 0 < cfg.startBlock then
    cfg.startBlock
  else if 0 < saved then
    (if 0 < cfg.cursorRewind then
      (if cfg.cursorRewind < saved then saved - cfg.cursorRewind else 0)
    else saved)
  else if 0 < cfg.startBlock then
    cfg.startBlock
  else if cfg.rewind < head then head - cfg.rewind else 0

/-- Start-block derivation exactly as the specification words it
(`max(0, x − y)` is truncated subtraction on `Nat`). -/
def determineStartBlockSpec (cfg : StartCfg) (saved head : Nat) : Nat :=
  if cfg.forceStart ∧ 0 < cfg.startBlock then
    cfg.startBlock
  else if 0 < saved then
    saved - cfg.cursorRewind
  else if 0 < cfg.startBlock then
    cfg.startBlock
  else
    head - cfg.rewind

/-! ### Node.Score (src/pkg/rpc/node.go) -/

/-- Embedding of `Node.Score`.  `priority` is the configured weight,
`latency` the EWMA latency in milliseconds (Go `int64`, so `Int`; the
Go truncating division by 10 only ever sees the nonnegative latencies
produced by `RecordMetric`, where it agrees with any integer division,
and the claims compare states at equal latency), `errorCount` the
consecutive-error counter and `latestBlock`/`globalMax` the observed
and pool-wide heights (`uint64`). -/
def score (priority latency : Int) (errorCount latestBlock globalMax : Nat) : Int :=
  let s0 : Int := priority * 100 - latency / 10 - (errorCount : Int) * 500
  if 0 < globalMax ∧ latestBlock < globalMax then
    let lag : Int := (globalMax : Int) - (latestBlock : Int)
    if 100 < lag then -10000
    else if 20 < lag then s0 - lag * 200
    else if 5 < lag then s0 - lag * 100
    else if 0 < lag then s0 - lag * 20
    else s0
  else s0

/-! ### Node.RecordMetric / circuit breaker (src/pkg/rpc/node.go)

Time is measured in whole seconds (`Nat`); the 30-second breaker
timeout compares `now - lastErrorTime` with 30. -/

/-- The breaker-relevant mutable state of a `Node`: the
consecutive-error counter, the breaker flag and the instant of the
last recorded error. -/
structure NodeState where
  errorCount : Nat
  circuitBroken : Bool
  lastErrorTime : Nat
deriving DecidableEq

/-- `Node.TripCircuitBreaker`. -/
def tripCircuitBreaker (s : NodeState) (now : Nat) : NodeState :=
  { s with circuitBroken := true, lastErrorTime := now }

/-- `Node.ResetCircuitBreaker`. -/
def resetCircuitBreaker (s : NodeState) : NodeState :=
  { s with circuitBroken := false }

/-- The error-streak / breaker part of `Node.RecordMetric` (the latency
EWMA update touches no field read here).  `isErr` says whether the
recorded call failed; `now` is the current instant. -/
def recordMetric (s : NodeState) (now : Nat) (isErr : Bool) : NodeState :=
  if isErr then
    let s1 := { s with errorCount := s.errorCount + 1, lastErrorTime := now }
    if 5 ≤ s1.errorCount then tripCircuitBreaker s1 now else s1
  else
    let s1 := if 0 < s.errorCount then { s with errorCount := s.errorCount - 1 } else s
    if s1.errorCount = 0 then resetCircuitBreaker s1 else s1

/-- `Node.IsCircuitBroken` at instant `now`. -/
def isCircuitBroken (s : NodeState) (now : Nat) : Bool :=
  if !s.circuitBroken then false
  else if 30 < now - s.lastErrorTime then false
  else true

/-! ### Filter.MatchesBloom (scanner filter source file)

Addresses and topic hashes are represented by `Nat` identifiers; the
chain's 2048-bit bloom membership test `bloom.Test` (a go-ethereum
library routine, outside this repository) is abstracted as the
predicate `test` it induces on those identifiers. -/

/-- `scanner.Filter`: the contract list and per-position topic lists. -/
structure LogFilter where
  contracts : List Nat
  topics : List (List Nat)

/-- Embedding of `Filter.MatchesBloom`: return `false` as soon as the
configured contracts are all missing from the bloom, or some non-empty
topic position has none of its candidates in the bloom; otherwise
`true`. -/
def matchesBloom (f : LogFilter) (test : Nat → Bool) : Bool :=
  if 0 < f.contracts.length && !(f.contracts.any test) then false
  else if f.topics.any (fun st => 0 < st.length && !(st.any test)) then false
  else true

/-! ### Webhook client (src/internal/webhook/client.go)

Durations are Go `time.Duration` nanosecond counts (`Int`). -/

/-- One `time.Second` in nanoseconds. -/
def second : Int := 1000000000

/-- The retry-relevant fields of `webhook.Config` after `NewClient`'s
defaulting. -/
structure WebhookCfg where
  maxAttempts : Int
  initialBackoff : Int
  maxBackoff : Int
deriving DecidableEq

/-- `NewClient`'s defaulting of non-positive configuration values. -/
def newClientCfg (ma ib mb : Int) : WebhookCfg :=
  ⟨if ma ≤ 0 then 1 else ma,
   if ib ≤ 0 then second else ib,
   if mb ≤ 0 then 10 * second else mb⟩

/-- `attemptSend`'s classification of an HTTP response status: any
status outside `[200, 300)` is a failure. -/
def attemptStatusOk (status : Int) : Bool :=
  !(status < 200 || 300 ≤ status)

/-- How `Client.Send` ends: a 2xx response, a context cancellation
observed before some attempt, or exhaustion of the attempt budget. -/
inductive SendRes where
  | success : SendRes
  | ctxErr : SendRes
  | exhausted : SendRes
deriving DecidableEq

/-- Observable outcome of the `Client.Send` retry loop: how it ended,
how many HTTP attempts were made, and the sequence of backoff waits
performed between attempts. -/
structure SendOut where
  result : SendRes
  httpAttempts : Nat
  waits : List Int
deriving DecidableEq

/-- The `backoff *= 2; if backoff > maxBackoff` step of `Client.Send`. -/
def capDouble (mb b : Int) : Int :=
  if mb < b * 2 then mb else b * 2

/-- The retry loop of `Client.Send` after the payload is marshalled.
`ok i` says whether the `i`-th HTTP attempt succeeds (2xx and no
transport error); `cancelled i` says whether the context is done when
iteration `i` starts (this covers both the loop-top check and a
cancellation during the preceding backoff wait — both return
`ctx.Err()` before the `i`-th attempt is made).  `remaining` counts the
loop iterations left out of `maxAttempts`. -/
def sendLoop (ok cancelled : Nat → Bool) (mb : Int) :
    (remaining i : Nat) → (backoff : Int) → SendOut
  | 0, _, _ => ⟨.exhausted, 0, []⟩
  | remaining+1, i, backoff =>
    if cancelled i then ⟨.ctxErr, 0, []⟩
    else
      let waited : List Int := if i = 0 then [] else [backoff]
      let backoff2 := if i = 0 then backoff else capDouble mb backoff
      if ok i then ⟨.success, 1, waited⟩
      else
        let out := sendLoop ok cancelled mb remaining (i+1) backoff2
        ⟨out.result, out.httpAttempts + 1, waited ++ out.waits⟩

/-- `Client.Send` for a non-empty batch, driven by the per-attempt
outcomes `ok` and the cancellation history `cancelled`. -/
def send (cfg : WebhookCfg) (ok cancelled : Nat → Bool) : SendOut :=
  sendLoop ok cancelled cfg.maxBackoff cfg.maxAttempts.toNat 0 cfg.initialBackoff

/-- The sequence of backoff values `Client.Send` waits between
attempts: `initialBackoff`, then doubled and capped after each
failure. -/
def backoffSeq (cfg : WebhookCfg) : Nat → Int
  | 0 => cfg.initialBackoff
  | k+1 => capDouble cfg.maxBackoff (backoffSeq cfg k)

/-! ### MultiClient.execute (src/pkg/rpc/client.go)

Nodes are identified by `Nat`.  `pickAvailableNode` is modelled as
succeeding and returning `pick i` at attempt `i` (its error return ends
`execute` before any attempt, which no part of the claim is about);
`res i` is the result of running the operation on that node.  The
crucial point kept from the source is that `defer node.Release()` is
registered inside the loop, so every release runs when `execute`
returns — none runs between attempts; `held` carries the nodes whose
release is still pending, and the trace snapshots it at each pick. -/

/-- Result of one attempt's operation: success, a context
cancellation / deadline error, or another error (with a code). -/
inductive OpRes where
  | ok : OpRes
  | ctxCancel (code : Nat) : OpRes
  | err (code : Nat) : OpRes
deriving DecidableEq

/-- Observable outcome of `MultiClient.execute`: the returned error
(`none` is Go `nil`), the permits still held at the moment of each
pick, and the number of attempts made. -/
structure ExecOut where
  ret : Option Nat
  picksHeld : List (List Nat)
  attemptsMade : Nat
deriving DecidableEq

/-- The attempt loop of `MultiClient.execute`. -/
def executeLoop (pick : Nat → Nat) (res : Nat → OpRes) :
    (remaining i : Nat) → (held : List Nat) → (lastErr : Option Nat) → ExecOut
  | 0, i, _, lastErr => ⟨lastErr, [], i⟩
  | remaining+1, i, held, _lastErr =>
    let node := pick i
    match res i with
    | .ok => ⟨none, [held], i+1⟩
    | .ctxCancel c => ⟨some c, [held], i+1⟩
    | .err c =>
      let out := executeLoop pick res remaining (i+1) (node :: held) (some c)
      ⟨out.ret, held :: out.picksHeld, out.attemptsMade⟩

/-- `MultiClient.execute` over `nodes`: at most `min (nodes.length) 3`
attempts, starting with no pending releases. -/
def executeModel (nodes : List Nat) (pick : Nat → Nat) (res : Nat → OpRes) : ExecOut :=
  executeLoop pick res (min nodes.length 3) 0 [] none

/-! ### PostgresOutput (sink source file)

`NewPostgresOutput` validates the table name against the Go regexp
`^[a-zA-Z0-9_]+$`; `PostgresOutput.Send` builds one INSERT statement
for the batch. -/

/-- Membership in the character class `[a-zA-Z0-9_]`. -/
def isWordChar (c : Char) : Bool :=
  ('a' ≤ c && c ≤ 'z') || ('A' ≤ c && c ≤ 'Z') || ('0' ≤ c && c ≤ '9') || c = '_'

/-- `regexp.MatchString "^[a-zA-Z0-9_]+$" table`: anchored, so the
whole name must be a non-empty run of word characters. -/
def tableNameValid (table : String) : Bool :=
  !(table.data.isEmpty) && table.data.all isWordChar

/-- The validation gate of `NewPostgresOutput` (the subsequent
connection and DDL steps depend on a live database and are not run
when the name is rejected). -/
def newPostgresOutputCheck (table : String) : Except String Unit :=
  if tableNameValid table then Except.ok () else Except.error ("invalid table name: " ++ table)

/-- What `fmt.Sprintf "($%%d, $%%d, $%%d, $%%d, $%%d)" (n+1) ... (n+5)`
evaluates to in Go: `%%` renders as a literal percent sign, so the
format holds no verb, no operand is consumed, and Go appends the
unconsumed operands as a `%!(EXTRA type=value, ...)` diagnostic
suffix. -/
def valuePlaceholderGo (n : Nat) : String :=
  "($%d, $%d, $%d, $%d, $%d)" ++
    "%!(EXTRA int=" ++ toString (n+1) ++ ", int=" ++ toString (n+2) ++
    ", int=" ++ toString (n+3) ++ ", int=" ++ toString (n+4) ++
    ", int=" ++ toString (n+5) ++ ")"

/-- The placeholder group the claim describes for the log at offset
`n = 5·i`: numbered positional placeholders `$n+1` … `$n+5`. -/
def valuePlaceholderSpec (n : Nat) : String :=
  "($" ++ toString (n+1) ++ ", $" ++ toString (n+2) ++ ", $" ++ toString (n+3) ++
    ", $" ++ toString (n+4) ++ ", $" ++ toString (n+5) ++ ")"

/-- The INSERT statement `PostgresOutput.Send` builds for a batch of
`n` logs (`strings.Join` of the per-log groups with `","`). -/
def postgresInsertStmt (table : String) (n : Nat) : String :=
  "INSERT INTO " ++ table ++
    " (block_number, tx_hash, log_index, event_name, data) VALUES " ++
    String.intercalate "," ((List.range n).map (fun i => valuePlaceholderGo (i * 5))) ++
    " ON CONFLICT (tx_hash, log_index) DO NOTHING"

/-! ### The scan loop (src/pkg/scanner/scanner.go, Scanner.Start)

One ticker iteration fetches the head height, computes the safe head
with wrapping `uint64` subtraction, and runs the catch-up loop, which
scans batched ranges and persists `endBlock + 1` after each successful
range.  `ok k` drives the success of the `k`-th `scanRange` call of the
tick; a failed call breaks the inner loop without saving, exactly as
the source does. -/

/-- Per-range record of a tick: `scanRange` was called with
`(fromB, toB)` and, on success, `SaveCursor save` was issued with
`save = toB + 1` in `uint64` arithmetic. -/
structure RangeEvent where
  fromB : Nat
  toB : Nat
  save : Nat
deriving DecidableEq

/-- The scanner configuration fields the loop reads. -/
structure ScanCfg where
  batchSize : Nat
  reorgSafe : Nat

/-- The `endBlock` computation of one catch-up iteration:
`currentBlock + batchSize - 1` in `uint64` arithmetic, clamped to
`safeHead`. -/
def scanEnd (cfg : ScanCfg) (cur safeHead : Nat) : Nat :=
  if safeHead < sub64 (add64 cur cfg.batchSize) 1 then safeHead
  else sub64 (add64 cur cfg.batchSize) 1

/-- The inner catch-up loop of `Scanner.Start` (fuel-bounded
unfolding; the theorems hold for every fuel).  Returns the events of
the successful ranges and the final `currentBlock`. -/
def catchUp (cfg : ScanCfg) (ok : Nat → Bool) :
    (fuel : Nat) → (cur safeHead k : Nat) → List RangeEvent × Nat
  | 0, cur, _, _ => ([], cur)
  | fuel+1, cur, safeHead, k =>
    if cur ≤ safeHead then
      if ok k then
        (⟨cur, scanEnd cfg cur safeHead, add64 (scanEnd cfg cur safeHead) 1⟩ ::
          (catchUp cfg ok fuel (add64 (scanEnd cfg cur safeHead) 1) safeHead (k+1)).1,
         (catchUp cfg ok fuel (add64 (scanEnd cfg cur safeHead) 1) safeHead (k+1)).2)
      else ([], cur)
    else ([], cur)

/-- One ticker iteration of `Scanner.Start`.  `fetch` is the outcome of
`client.BlockNumber`: `none` models an error, on which the loop logs
and `continue`s without touching the cursor. -/
def scanTick (cfg : ScanCfg) (fuel : Nat) (cur : Nat) (fetch : Option Nat)
    (ok : Nat → Bool) : List RangeEvent × Nat :=
  match fetch with
  | none => ([], cur)
  | some head =>
    let safeHead := sub64 head cfg.reorgSafe
    if safeHead < cur then ([], cur)
    else catchUp cfg ok fuel cur safeHead 0

/-- A run of the scan loop over a list of ticks, each tick given by its
`BlockNumber` outcome and its `scanRange` success history.  Returns the
concatenated range events and the final cursor. -/
def scanRun (cfg : ScanCfg) (fuel : Nat) :
    (cur : Nat) → List (Option Nat × (Nat → Bool)) → List RangeEvent × Nat
  | cur, [] => ([], cur)
  | cur, t :: rest =>
    let first := scanTick cfg fuel cur t.1 t.2
    let later := scanRun cfg fuel first.2 rest
    (first.1 ++ later.1, later.2)

/-! ## Theorems -/

theorem U64_pos : 0 < U64 := by decide

theorem add64_eq_of_lt {a b : Nat} (h : a + b < U64) : add64 a b = a + b := by
  simpa [add64] using Nat.mod_eq_of_lt h

theorem sub64_eq_of_le {a b : Nat} (hba : b ≤ a) (ha : a < U64) :
    sub64 a b = a - b := by
  have hb : b < U64 := lt_of_le_of_lt hba ha
  have hbm : b % U64 = b := Nat.mod_eq_of_lt hb
  have h1 : a + (U64 - b) = (a - b) + U64 := by omega
  have h2 : ((a - b) + U64) % U64 = (a - b) % U64 := Nat.add_mod_right _ _
  have h3 : (a - b) % U64 = a - b := Nat.mod_eq_of_lt (by omega)
  simp only [sub64, hbm, h1, h2, h3]

/-- C2: `determineStartBlock` agrees with the spec's four-way priority
list — `startBlock` under `forceStart`, else `max(0, saved −
cursorRewind)` for a positive saved cursor, else a positive
`startBlock`, else `max(0, head − startRewind)` — and in particular
yields 0 for no saved cursor, `startRewind = 100`, head 50, and 490
for saved 500, `cursorRewind = 10`, no force. -/
theorem determineStartBlock_correct :
    (∀ (cfg : StartCfg) (saved head : Nat),
      determineStartBlock cfg saved head = determineStartBlockSpec cfg saved head) ∧
    determineStartBlock ⟨0, false, 100, 0⟩ 0 50 = 0 ∧
    determineStartBlock ⟨0, false, 0, 10⟩ 500 77 = 490 := by
  refine ⟨fun cfg saved head => ?_, by decide, by decide⟩
  simp only [determineStartBlock, determineStartBlockSpec]
  split_ifs <;> omega

/-- C4 counterexample: at equal priority 1 and equal latency 0, with
global max height 200 and observed height 98 the lag is 102, the
severely-lagging branch of `Score` returns the constant −10000, and
one more consecutive error (or one more block of lag) does not lower
the score — `Score` is not strictly decreasing in either argument. -/
theorem score_flat_at_severe_lag :
    score 1 0 0 98 200 = -10000 ∧
    score 1 0 1 98 200 = -10000 ∧
    score 1 0 0 97 200 = -10000 ∧
    ¬ (score 1 0 1 98 200 < score 1 0 0 98 200) ∧
    ¬ (score 1 0 0 97 200 < score 1 0 0 98 200) := by decide

/-- C4 (amended): at equal priority and latency, and outside the
severely-lagging regime (lag at most 100, where `Score` returns the
constant −10000), one more consecutive error strictly lowers the
score, and one more block of lag (observed height one lower, with the
new lag still at most 100) strictly lowers the score. -/
theorem score_strictly_decreasing (p l : Int) (e lb gm : Nat)
    (hlag : gm - lb ≤ 100) :
    score p l (e + 1) lb gm < score p l e lb gm ∧
    (∀ lb', lb' + 1 = lb → lb ≤ gm → 0 < gm → gm - lb' ≤ 100 →
      score p l e lb' gm < score p l e lb gm) := by
  constructor
  · simp only [score]
    split_ifs <;> push_cast <;> omega
  · intro lb' hlb' hle hgm hlag'
    simp only [score]
    split_ifs <;> push_cast <;> omega

/-- C4 witness: the amended statement at priority 1, latency 0, no
errors, global max 100 and observed height 95 (lag 5): an extra error
and an extra block of lag each strictly lower the score. -/
theorem score_strictly_decreasing_witness :
    score 1 0 1 95 100 < score 1 0 0 95 100 ∧
    score 1 0 0 94 100 < score 1 0 0 95 100 :=
  ⟨(score_strictly_decreasing 1 0 0 95 100 (by decide)).1,
   (score_strictly_decreasing 1 0 0 95 100 (by decide)).2 94 rfl (by decide)
     (by decide) (by decide)⟩

/-- C5: `RecordMetric` on an error increments the consecutive-error
count, stamps `lastErrorAt`, and opens the breaker exactly when the
new count reaches 5 (leaving it as it was below 5); on a success it
decrements the count by one, not below 0, and closes the breaker
exactly when the count reaches 0; and `IsCircuitBroken` reports the
breaker open precisely while the flag is set and at most 30 seconds
have elapsed since `lastErrorAt`. -/
theorem circuit_breaker_correct :
    (∀ (s : NodeState) (now : Nat),
      (recordMetric s now true).errorCount = s.errorCount + 1 ∧
      (recordMetric s now true).lastErrorTime = now ∧
      (recordMetric s now true).circuitBroken =
        (s.circuitBroken || decide (5 ≤ s.errorCount + 1))) ∧
    (∀ (s : NodeState) (now : Nat),
      (recordMetric s now false).errorCount = s.errorCount - 1 ∧
      (recordMetric s now false).lastErrorTime = s.lastErrorTime ∧
      (recordMetric s now false).circuitBroken =
        (s.circuitBroken && decide (s.errorCount - 1 ≠ 0))) ∧
    (∀ (s : NodeState) (now : Nat),
      isCircuitBroken s now = true ↔
        (s.circuitBroken = true ∧ now - s.lastErrorTime ≤ 30)) := by
  refine ⟨fun s now => ?_, fun s now => ?_, fun s now => ?_⟩
  · by_cases h5 : 5 ≤ s.errorCount + 1
    · simp [recordMetric, tripCircuitBreaker, h5]
    · simp [recordMetric, tripCircuitBreaker, h5]
  · by_cases h0 : 0 < s.errorCount
    · by_cases h1 : s.errorCount - 1 = 0
      · simp [recordMetric, resetCircuitBreaker, h0, h1]
      · simp [recordMetric, resetCircuitBreaker, h0, h1]
    · have he : s.errorCount = 0 := by omega
      simp [recordMetric, resetCircuitBreaker, he]
  · by_cases hb : s.circuitBroken
    · by_cases ht : 30 < now - s.lastErrorTime
      · simp [isCircuitBroken, hb, ht]
        omega
      · simp [isCircuitBroken, hb, ht]
        omega
    · simp [isCircuitBroken, hb]

/-- The matching condition of `matchesBloom`, spelled out. -/
theorem matchesBloom_iff (f : LogFilter) (test : Nat → Bool) :
    matchesBloom f test = true ↔
      ((f.contracts = [] ∨ ∃ a ∈ f.contracts, test a = true) ∧
       ∀ st ∈ f.topics, st = [] ∨ ∃ h ∈ st, test h = true) := by
  simp only [matchesBloom]
  split_ifs with h1 h2
  · simp only [Bool.false_eq_true, false_iff, not_and]
    rintro (hnil | ⟨a, ha, hta⟩) _
    · rw [hnil] at h1; simp at h1
    · simp only [Bool.and_eq_true, decide_eq_true_eq, Bool.not_eq_true',
        List.any_eq_false] at h1
      exact absurd hta (by simp [h1.2 a ha])
  · simp only [Bool.false_eq_true, false_iff, not_and]
    intro _ hb
    simp only [List.any_eq_true, Bool.and_eq_true, decide_eq_true_eq,
      Bool.not_eq_true', List.any_eq_false] at h2
    obtain ⟨st, hst, hlen, hnone⟩ := h2
    rcases hb st hst with hnil | ⟨x, hx, htx⟩
    · rw [hnil] at hlen; simp at hlen
    · exact absurd htx (by simp [hnone x hx])
  · simp only [true_iff]
    simp only [Bool.and_eq_true, decide_eq_true_eq, Bool.not_eq_true', not_and,
      Bool.not_eq_false] at h1
    simp only [List.any_eq_true, not_exists, not_and, Bool.and_eq_true,
      decide_eq_true_eq, Bool.not_eq_true'] at h2
    constructor
    · by_cases hcs : f.contracts = []
      · exact Or.inl hcs
      · have hlen : 0 < f.contracts.length := List.length_pos.mpr hcs
        have := h1 hlen
        rw [List.any_eq_true] at this
        obtain ⟨a, ha, hta⟩ := this
        exact Or.inr ⟨a, ha, hta⟩
    · intro st hst
      by_cases hnil : st = []
      · exact Or.inl hnil
      · have hlen : 0 < st.length := List.length_pos.mpr hnil
        have hany : st.any test = true := by
          have h := h2 st hst hlen
          simpa using h
        rw [List.any_eq_true] at hany
        obtain ⟨x, hx, htx⟩ := hany
        exact Or.inr ⟨x, hx, htx⟩

/-- C7: `MatchesBloom` is the conjunction of "some configured contract
address tests into the bloom (vacuously if none is configured)" and,
for every topic position, "the position is unconstrained or some of
its hashes tests into the bloom"; in particular the trivial filter
(no contracts, every position empty) always matches. -/
theorem matchesBloom_correct :
    (∀ (f : LogFilter) (test : Nat → Bool),
      matchesBloom f test = true ↔
        ((f.contracts = [] ∨ ∃ a ∈ f.contracts, test a = true) ∧
         ∀ st ∈ f.topics, st = [] ∨ ∃ h ∈ st, test h = true)) ∧
    (∀ (k : Nat) (test : Nat → Bool),
      matchesBloom ⟨[], List.replicate k []⟩ test = true) := by
  refine ⟨matchesBloom_iff, fun k test => ?_⟩
  exact (matchesBloom_iff ⟨[], List.replicate k []⟩ test).mpr
    ⟨Or.inl rfl, fun st hst => Or.inl (List.eq_of_mem_replicate hst)⟩

/-- Unfolding of one `sendLoop` iteration that observes a cancelled
context. -/
theorem sendLoop_step_cancel {ok cancelled : Nat → Bool} {mb b : Int} {r i : Nat}
    (hc : cancelled i = true) :
    sendLoop ok cancelled mb (r+1) i b = ⟨.ctxErr, 0, []⟩ := by
  simp [sendLoop, hc]

/-- Unfolding of one successful `sendLoop` iteration. -/
theorem sendLoop_step_ok {ok cancelled : Nat → Bool} {mb b : Int} {r i : Nat}
    (hc : cancelled i = false) (hk : ok i = true) :
    sendLoop ok cancelled mb (r+1) i b =
      ⟨.success, 1, if i = 0 then [] else [b]⟩ := by
  simp [sendLoop, hc, hk]

/-- Unfolding of one failed `sendLoop` iteration. -/
theorem sendLoop_step_fail {ok cancelled : Nat → Bool} {mb b : Int} {r i : Nat}
    (hc : cancelled i = false) (hk : ok i = false) :
    sendLoop ok cancelled mb (r+1) i b =
      ⟨(sendLoop ok cancelled mb r (i+1) (if i = 0 then b else capDouble mb b)).result,
       (sendLoop ok cancelled mb r (i+1) (if i = 0 then b else capDouble mb b)).httpAttempts + 1,
       (if i = 0 then [] else [b]) ++
         (sendLoop ok cancelled mb r (i+1) (if i = 0 then b else capDouble mb b)).waits⟩ := by
  simp [sendLoop, hc, hk]

/-- The webhook retry loop performs at most `remaining` HTTP attempts. -/
theorem sendLoop_attempts_le (ok cancelled : Nat → Bool) (mb : Int) :
    ∀ (remaining i : Nat) (b : Int),
      (sendLoop ok cancelled mb remaining i b).httpAttempts ≤ remaining := by
  intro remaining
  induction remaining with
  | zero => intro i b; simp [sendLoop]
  | succ r ih =>
    intro i b
    by_cases hc : cancelled i
    · rw [sendLoop_step_cancel hc]
      simp
    · rw [Bool.not_eq_true] at hc
      by_cases hk : ok i
      · rw [sendLoop_step_ok hc hk]
        simp
      · rw [Bool.not_eq_true] at hk
        rw [sendLoop_step_fail hc hk]
        have := ih (i+1) (if i = 0 then b else capDouble mb b)
        simpa using Nat.succ_le_succ this

/-- `backoffSeq` only reads the backoff fields, not the attempt budget. -/
theorem backoffSeq_mk (x : Int) (cfg : WebhookCfg) :
    ∀ j, backoffSeq ⟨x, cfg.initialBackoff, cfg.maxBackoff⟩ j = backoffSeq cfg j := by
  intro j
  induction j with
  | zero => rfl
  | succ k ih => simp [backoffSeq, ih]

/-- Starting the backoff sequence one doubling later shifts it by one. -/
theorem backoffSeq_shift (x y mb b : Int) :
    ∀ j, backoffSeq ⟨x, capDouble mb b, mb⟩ j = backoffSeq ⟨y, b, mb⟩ (j + 1) := by
  intro j
  induction j with
  | zero => rfl
  | succ k ih => simp [backoffSeq, ih]

/-- From any iteration `i ≥ 1` on, the waits performed by the retry
loop follow the doubled-and-capped sequence seeded at the current
backoff value. -/
theorem sendLoop_waits_get (ok cancelled : Nat → Bool) (mb : Int) :
    ∀ (remaining i : Nat) (b : Int), 1 ≤ i → ∀ (j : Nat),
      j < (sendLoop ok cancelled mb remaining i b).waits.length →
      (sendLoop ok cancelled mb remaining i b).waits.get? j =
        some (backoffSeq ⟨0, b, mb⟩ j) := by
  intro remaining
  induction remaining with
  | zero => intro i b _ j hj; simp [sendLoop] at hj
  | succ r ih =>
    intro i b hi j hj
    have hi0 : ¬ i = 0 := by omega
    by_cases hc : cancelled i
    · rw [sendLoop_step_cancel hc] at hj
      simp at hj
    · rw [Bool.not_eq_true] at hc
      by_cases hk : ok i
      · rw [sendLoop_step_ok hc hk] at hj ⊢
        simp only [hi0, ite_false] at hj ⊢
        have : j = 0 := by simpa using Nat.lt_one_iff.mp (by simpa using hj)
        subst this
        rfl
      · rw [Bool.not_eq_true] at hk
        rw [sendLoop_step_fail hc hk] at hj ⊢
        simp only [hi0, ite_false, List.singleton_append] at hj ⊢
        match j with
        | 0 => rfl
        | j' + 1 =>
          simp only [List.get?_cons_succ]
          have hj' : j' < (sendLoop ok cancelled mb r (i+1) (capDouble mb b)).waits.length := by
            simp at hj
            omega
          have := ih (i+1) (capDouble mb b) (by omega) j' hj'
          rw [this, backoffSeq_shift 0 0 mb b j']

/-- If the context becomes cancelled from iteration `k` on and every
earlier attempt fails, the loop stops with `ctx.Err()` after exactly
`k - i` further attempts. -/
theorem sendLoop_cancel (ok : Nat → Bool) (mb : Int) (k : Nat) :
    ∀ (remaining i : Nat) (b : Int), 1 ≤ i → i ≤ k →
      (∀ j, i ≤ j → j < k → ok j = false) → k < i + remaining →
      (sendLoop ok (fun j => decide (k ≤ j)) mb remaining i b).result = .ctxErr ∧
      (sendLoop ok (fun j => decide (k ≤ j)) mb remaining i b).httpAttempts = k - i := by
  intro remaining
  induction remaining with
  | zero => intro i b _ hik _ hlt; omega
  | succ r ih =>
    intro i b hi hik hok hlt
    by_cases hke : i = k
    · subst hke
      have hc : (fun j => decide (i ≤ j)) i = true := by simp
      rw [sendLoop_step_cancel hc]
      simp
    · have hiklt : i < k := by omega
      have hc : (fun j => decide (k ≤ j)) i = false := by simp; omega
      have hoki : ok i = false := hok i (le_refl i) hiklt
      rw [sendLoop_step_fail hc hoki]
      have hrec := ih (i+1) (if i = 0 then b else capDouble mb b) (by omega) (by omega)
        (fun j h1 h2 => hok j (by omega) h2) (by omega)
      refine ⟨hrec.1, ?_⟩
      dsimp only
      rw [hrec.2]
      omega

/-- The waits of a whole `send` follow the configured backoff
sequence. -/
theorem send_waits_get (ok cancelled : Nat → Bool) (cfg : WebhookCfg) :
    ∀ (j : Nat), j < (send cfg ok cancelled).waits.length →
      (send cfg ok cancelled).waits.get? j = some (backoffSeq cfg j) := by
  have hmain : ∀ (n j : Nat),
      j < (sendLoop ok cancelled cfg.maxBackoff n 0 cfg.initialBackoff).waits.length →
      (sendLoop ok cancelled cfg.maxBackoff n 0 cfg.initialBackoff).waits.get? j =
        some (backoffSeq cfg j) := by
    intro n j hj
    cases n with
    | zero => simp [sendLoop] at hj
    | succ r =>
      by_cases hc : cancelled 0
      · rw [sendLoop_step_cancel hc] at hj
        simp at hj
      · rw [Bool.not_eq_true] at hc
        by_cases hk : ok 0
        · rw [sendLoop_step_ok hc hk] at hj
          simp at hj
        · rw [Bool.not_eq_true] at hk
          rw [sendLoop_step_fail hc hk] at hj ⊢
          simp only [ite_true, List.nil_append] at hj ⊢
          have := sendLoop_waits_get ok cancelled cfg.maxBackoff r 1
            cfg.initialBackoff (le_refl 1) j hj
          rw [this, backoffSeq_mk 0 cfg j]
  exact fun j hj => hmain cfg.maxAttempts.toNat j hj

/-- C8: the webhook `Client.Send` retry loop makes at most
`maxAttempts` HTTP attempts (`NewClient` defaulting a non-positive
configuration to 1 attempt, 1s initial backoff, 10s max backoff);
classifies exactly the statuses in `[200, 300)` as success; returns
success as soon as an attempt succeeds — an endpoint failing once then
succeeding under `maxAttempts = 3` sees exactly two requests and one
wait of `initialBackoff`; waits between attempts follow
`initialBackoff` doubled after each failure and capped at
`maxBackoff`; and a context cancelled from iteration `k` on (during
the preceding backoff) aborts with the context error after exactly `k`
attempts. -/
theorem webhook_send_correct :
    (∀ (ma ib mb : Int) (ok cancelled : Nat → Bool),
      (send (newClientCfg ma ib mb) ok cancelled).httpAttempts ≤
        (newClientCfg ma ib mb).maxAttempts.toNat) ∧
    (newClientCfg 0 0 0 = ⟨1, second, 10 * second⟩) ∧
    (∀ s : Int, attemptStatusOk s = true ↔ (200 ≤ s ∧ s < 300)) ∧
    (send (newClientCfg 3 1 10) (fun i => decide (i = 1)) (fun _ => false) =
      ⟨.success, 2, [1]⟩) ∧
    (∀ (ma ib mb : Int) (ok cancelled : Nat → Bool) (j : Nat),
      j < (send (newClientCfg ma ib mb) ok cancelled).waits.length →
      (send (newClientCfg ma ib mb) ok cancelled).waits.get? j =
        some (backoffSeq (newClientCfg ma ib mb) j)) ∧
    (∀ (ma ib mb : Int) (ok : Nat → Bool) (k : Nat), 1 ≤ k →
      (k : Int) < (newClientCfg ma ib mb).maxAttempts →
      (∀ j, j < k → ok j = false) →
      (send (newClientCfg ma ib mb) ok (fun j => decide (k ≤ j))).result = .ctxErr ∧
      (send (newClientCfg ma ib mb) ok (fun j => decide (k ≤ j))).httpAttempts = k) := by
  refine ⟨fun ma ib mb ok cancelled => sendLoop_attempts_le _ _ _ _ _ _,
    by decide, fun s => ?_, by decide,
    fun ma ib mb ok cancelled => send_waits_get ok cancelled _,
    fun ma ib mb ok k hk1 hkm hok => ?_⟩
  · simp only [attemptStatusOk, Bool.not_eq_true', Bool.or_eq_false_iff,
      decide_eq_false_iff_not, not_lt, not_le]
  · have hpos : (0 : Int) < (newClientCfg ma ib mb).maxAttempts := by
      simp only [newClientCfg]
      split_ifs <;> omega
    have hma : k < (newClientCfg ma ib mb).maxAttempts.toNat := by omega
    show (sendLoop ok _ _ (newClientCfg ma ib mb).maxAttempts.toNat 0 _).result = _ ∧
      (sendLoop ok _ _ (newClientCfg ma ib mb).maxAttempts.toNat 0 _).httpAttempts = k
    obtain ⟨r, hr⟩ : ∃ r, (newClientCfg ma ib mb).maxAttempts.toNat = r + 1 :=
      ⟨(newClientCfg ma ib mb).maxAttempts.toNat - 1, by omega⟩
    rw [hr]
    have hc0 : (fun j => decide (k ≤ j)) 0 = false := by simp; omega
    have hok0 : ok 0 = false := hok 0 hk1
    rw [sendLoop_step_fail hc0 hok0]
    have hrec := sendLoop_cancel ok (newClientCfg ma ib mb).maxBackoff k r 1
      (if (0 : Nat) = 0 then (newClientCfg ma ib mb).initialBackoff
        else capDouble (newClientCfg ma ib mb).maxBackoff (newClientCfg ma ib mb).initialBackoff)
      (le_refl 1) (by omega) (fun j h1 h2 => hok j h2) (by omega)
    refine ⟨hrec.1, ?_⟩
    dsimp only
    rw [hrec.2]
    omega

/-- C8 witness: concrete instances of the hypotheses-bearing parts —
the fail-then-succeed endpoint under three attempts sees two requests,
and a context cancelled after the first failed attempt aborts the send
with the context error after exactly one request. -/
theorem webhook_send_correct_witness :
    (send (newClientCfg 3 1 10) (fun i => decide (i = 1)) (fun _ => false)).httpAttempts ≤
      (newClientCfg 3 1 10).maxAttempts.toNat ∧
    (send (newClientCfg 3 1 10) (fun i => decide (i = 1)) (fun _ => false)).waits.get? 0 =
      some (backoffSeq (newClientCfg 3 1 10) 0) ∧
    ((send (newClientCfg 3 1 10) (fun _ => false) (fun j => decide (1 ≤ j))).result = .ctxErr ∧
     (send (newClientCfg 3 1 10) (fun _ => false) (fun j => decide (1 ≤ j))).httpAttempts = 1) :=
  ⟨webhook_send_correct.1 3 1 10 (fun i => decide (i = 1)) (fun _ => false),
   webhook_send_correct.2.2.2.2.1 3 1 10 (fun i => decide (i = 1)) (fun _ => false) 0
     (by decide),
   webhook_send_correct.2.2.2.2.2 3 1 10 (fun _ => false) 1 (le_refl 1) (by decide)
     (fun j _ => rfl)⟩

/-- C6: with two nodes and an operation failing with a non-context
error on every attempt, `execute` makes `min 2 3 = 2` attempts and
returns the last error, but at the second attempt's pick the first
node's permit is still held (`picksHeld` lists `[10]`, not `[]`): the
`defer node.Release()` registered inside the loop only runs when
`execute` returns, so no release happens between attempts, contrary to
the claimed pick → run → release per attempt. -/
theorem execute_holds_permits_across_attempts :
    executeModel [10, 20] (fun i => 10 * (i + 1)) (fun _ => OpRes.err 7) =
      ⟨some 7, [[], [10]], 2⟩ := by
  rfl

/-- C9: `NewPostgresOutput` rejects exactly the table names outside
`[A-Za-z0-9_]+`, but the `VALUES` groups `Send` builds are not
`($1, …, $5)`: the format string escapes its verbs (`%%d`), so Go
renders a literal `($%d, $%d, $%d, $%d, $%d)` followed by the
`%!(EXTRA …)` diagnostic for the five unconsumed arguments. -/
theorem postgres_stmt_placeholders_bug :
    newPostgresOutputCheck "bad table!" = Except.error "invalid table name: bad table!" ∧
    newPostgresOutputCheck "evm_logs" = Except.ok () ∧
    postgresInsertStmt "evm_logs" 1 =
      "INSERT INTO evm_logs (block_number, tx_hash, log_index, event_name, data) VALUES ($%d, $%d, $%d, $%d, $%d)%!(EXTRA int=1, int=2, int=3, int=4, int=5) ON CONFLICT (tx_hash, log_index) DO NOTHING" ∧
    valuePlaceholderGo 0 ≠ valuePlaceholderSpec 0 := by
  refine ⟨rfl, rfl, rfl, by decide⟩

/-- C3: a tick with head 3 and `reorgSafe = 10` (head below the reorg
window, where the claim says nothing may be scanned) computes
`safeHead = head - reorgSafe` with wrapping `uint64` subtraction,
which underflows to `2^64 - 7`, and the tick calls `scanRange(0, 99)`
— scanning far beyond the unfinalized tip. -/
theorem reorg_safety_underflow :
    scanTick ⟨100, 10⟩ 1 0 (some 3) (fun _ => true) = ([⟨0, 99, 100⟩], 100) := by
  rfl

/-- C10: a tick whose `BlockNumber` call fails produces no `scanRange`
call and no cursor save, leaves the in-memory cursor unchanged, and
the run continues with the remaining ticks exactly as if the failed
tick had not happened. -/
theorem blocknumber_error_keeps_cursor :
    ∀ (cfg : ScanCfg) (fuel cur : Nat) (ok : Nat → Bool)
      (ticks : List (Option Nat × (Nat → Bool))),
      scanTick cfg fuel cur none ok = ([], cur) ∧
      scanRun cfg fuel cur ((none, ok) :: ticks) = scanRun cfg fuel cur ticks := by
  intro cfg fuel cur ok ticks
  exact ⟨rfl, by simp [scanRun, scanTick]⟩

/-- An element under `head?` is a member. -/
theorem mem_of_head?_eq {α : Type} {l : List α} {a : α} (h : l.head? = some a) :
    a ∈ l := by
  cases l with
  | nil => simp at h
  | cons b t => simp at h; simp [h]

/-- An element under `getLast?` is a member. -/
theorem mem_of_getLast?_eq {α : Type} : ∀ {l : List α} {a : α},
    l.getLast? = some a → a ∈ l
  | [], a, h => by simp at h
  | [b], a, h => by
    simp [List.getLast?] at h
    simp [h]
  | b :: c :: t, a, h => by
    rw [List.getLast?_cons_cons] at h
    exact List.mem_cons_of_mem b (mem_of_getLast?_eq h)

/-- Chains of `≤` concatenate across a separating bound. -/
theorem chain'_le_append (c : Nat) {l1 l2 : List Nat}
    (h1 : List.Chain' (· ≤ ·) l1) (h2 : List.Chain' (· ≤ ·) l2)
    (hb1 : ∀ x ∈ l1, x ≤ c) (hb2 : ∀ y ∈ l2, c ≤ y) :
    List.Chain' (· ≤ ·) (l1 ++ l2) := by
  rw [List.chain'_append]
  refine ⟨h1, h2, fun x hx y hy => ?_⟩
  exact le_trans (hb1 x (mem_of_getLast?_eq hx)) (hb2 y (mem_of_head?_eq hy))

/-- Unfolding of one successful catch-up iteration. -/
theorem catchUp_step (cfg : ScanCfg) (ok : Nat → Bool) (fuel cur safeHead k : Nat)
    (hcs : cur ≤ safeHead) (hok : ok k = true) :
    catchUp cfg ok (fuel+1) cur safeHead k =
      (⟨cur, scanEnd cfg cur safeHead, add64 (scanEnd cfg cur safeHead) 1⟩ ::
        (catchUp cfg ok fuel (add64 (scanEnd cfg cur safeHead) 1) safeHead (k+1)).1,
       (catchUp cfg ok fuel (add64 (scanEnd cfg cur safeHead) 1) safeHead (k+1)).2) := by
  simp only [catchUp]
  rw [if_pos hcs, if_pos hok]

/-- Unfolding of one failed catch-up iteration: the loop breaks
without saving. -/
theorem catchUp_step_fail (cfg : ScanCfg) (ok : Nat → Bool) (fuel cur safeHead k : Nat)
    (hcs : cur ≤ safeHead) (hok : ok k = false) :
    catchUp cfg ok (fuel+1) cur safeHead k = ([], cur) := by
  simp only [catchUp]
  rw [if_pos hcs, if_neg (by simp [hok])]

/-- Unfolding of a catch-up iteration past the safe head: the loop
exits. -/
theorem catchUp_step_done (cfg : ScanCfg) (ok : Nat → Bool) (fuel cur safeHead k : Nat)
    (hcs : ¬ cur ≤ safeHead) :
    catchUp cfg ok (fuel+1) cur safeHead k = ([], cur) := by
  simp only [catchUp]
  rw [if_neg hcs]

set_option maxRecDepth 8000

/-- The catch-up loop saves exactly `end + 1` for each scanned range,
in a strictly ordered sequence above the starting cursor and below the
final cursor, and the cursor never moves backwards or past `2^64`. -/
theorem catchUp_spec (cfg : ScanCfg) (ok : Nat → Bool) (hb : 1 ≤ cfg.batchSize) :
    ∀ (fuel cur safeHead k : Nat), cur < U64 → safeHead + cfg.batchSize < U64 →
      (∀ e ∈ (catchUp cfg ok fuel cur safeHead k).1,
        e.save = e.toB + 1 ∧ cur < e.save ∧
          e.save ≤ (catchUp cfg ok fuel cur safeHead k).2) ∧
      List.Chain' (· ≤ ·) ((catchUp cfg ok fuel cur safeHead k).1.map RangeEvent.save) ∧
      cur ≤ (catchUp cfg ok fuel cur safeHead k).2 ∧
      (catchUp cfg ok fuel cur safeHead k).2 < U64 := by
  intro fuel
  induction fuel with
  | zero =>
    intro cur safeHead k hcur _
    exact ⟨fun e he => absurd he (List.not_mem_nil e), List.chain'_nil, le_refl cur, hcur⟩
  | succ f ih =>
    intro cur safeHead k hcur hsafe
    by_cases hcs : cur ≤ safeHead
    · by_cases hok : ok k
      · have hcb : cur + cfg.batchSize < U64 := by omega
        have hadd : add64 cur cfg.batchSize = cur + cfg.batchSize := add64_eq_of_lt hcb
        have hval : scanEnd cfg cur safeHead =
            if safeHead < cur + cfg.batchSize - 1 then safeHead
            else cur + cfg.batchSize - 1 := by
          unfold scanEnd
          rw [hadd, sub64_eq_of_le (by omega) hcb]
        have hendB1 : cur ≤ scanEnd cfg cur safeHead := by
          rw [hval]
          split_ifs <;> omega
        have hendB2 : scanEnd cfg cur safeHead ≤ safeHead := by
          rw [hval]
          split_ifs <;> omega
        have hnext : add64 (scanEnd cfg cur safeHead) 1 = scanEnd cfg cur safeHead + 1 :=
          add64_eq_of_lt (by omega)
        rw [catchUp_step cfg ok f cur safeHead k hcs hok, hnext]
        have hrec := ih (scanEnd cfg cur safeHead + 1) safeHead (k+1) (by omega) hsafe
        obtain ⟨hre, hrc, hrle, hru⟩ := hrec
        refine ⟨?_, ?_, by dsimp only; omega, by dsimp only; omega⟩
        · intro e he
          rcases List.mem_cons.mp he with rfl | he'
          · exact ⟨by dsimp only, by dsimp only; omega, by dsimp only; omega⟩
          · obtain ⟨h1, h2, h3⟩ := hre e he'
            exact ⟨h1, by omega, h3⟩
        · rw [List.map_cons, List.chain'_cons']
          refine ⟨fun y hy => ?_, hrc⟩
          have hym := mem_of_head?_eq hy
          obtain ⟨e, hem, hesave⟩ := List.mem_map.mp hym
          obtain ⟨-, h2, -⟩ := hre e hem
          dsimp only
          omega
      · rw [Bool.not_eq_true] at hok
        rw [catchUp_step_fail cfg ok f cur safeHead k hcs hok]
        exact ⟨by simp, by simp, le_refl cur, hcur⟩
    · rw [catchUp_step_done cfg ok f cur safeHead k hcs]
      exact ⟨by simp, by simp, le_refl cur, hcur⟩

/-- One tick under a head at least `reorgSafe` (and with room for one
batch below `2^64`) satisfies the same cursor discipline. -/
theorem scanTick_spec (cfg : ScanCfg) (ok : Nat → Bool) (hb : 1 ≤ cfg.batchSize)
    (fuel cur : Nat) (fetch : Option Nat) (hcur : cur < U64)
    (hfetch : ∀ head, fetch = some head →
      cfg.reorgSafe ≤ head ∧ head + cfg.batchSize < U64) :
    (∀ e ∈ (scanTick cfg fuel cur fetch ok).1,
      e.save = e.toB + 1 ∧ cur < e.save ∧
        e.save ≤ (scanTick cfg fuel cur fetch ok).2) ∧
    List.Chain' (· ≤ ·) ((scanTick cfg fuel cur fetch ok).1.map RangeEvent.save) ∧
    cur ≤ (scanTick cfg fuel cur fetch ok).2 ∧
    (scanTick cfg fuel cur fetch ok).2 < U64 := by
  cases fetch with
  | none => simp [scanTick, hcur]
  | some head =>
    obtain ⟨hr, hu⟩ := hfetch head rfl
    have hhead : head < U64 := by omega
    have hsub : sub64 head cfg.reorgSafe = head - cfg.reorgSafe :=
      sub64_eq_of_le hr hhead
    by_cases hlt : sub64 head cfg.reorgSafe < cur
    · simp [scanTick, hlt, hcur]
    · have hsafe : (head - cfg.reorgSafe) + cfg.batchSize < U64 := by omega
      have := catchUp_spec cfg ok hb fuel cur (sub64 head cfg.reorgSafe) 0 hcur
        (by rw [hsub]; exact hsafe)
      simpa [scanTick, hlt] using this

/-- A whole run of ticks: every save is its range's `end + 1`, the
saves are monotone, and the cursor never decreases. -/
theorem scanRun_spec (cfg : ScanCfg) (hb : 1 ≤ cfg.batchSize) :
    ∀ (ticks : List (Option Nat × (Nat → Bool))) (fuel cur : Nat), cur < U64 →
      (∀ p ∈ ticks, ∀ head, p.1 = some head →
        cfg.reorgSafe ≤ head ∧ head + cfg.batchSize < U64) →
      (∀ e ∈ (scanRun cfg fuel cur ticks).1,
        e.save = e.toB + 1 ∧ cur < e.save ∧
          e.save ≤ (scanRun cfg fuel cur ticks).2) ∧
      List.Chain' (· ≤ ·) ((scanRun cfg fuel cur ticks).1.map RangeEvent.save) ∧
      cur ≤ (scanRun cfg fuel cur ticks).2 ∧
      (scanRun cfg fuel cur ticks).2 < U64 := by
  intro ticks
  induction ticks with
  | nil =>
    intro fuel cur hcur _
    simp [scanRun, hcur]
  | cons t rest ih =>
    intro fuel cur hcur hticks
    obtain ⟨ht1, ht2, ht3, ht4⟩ := scanTick_spec cfg t.2 hb fuel cur t.1 hcur
      (fun head hh => hticks t (List.mem_cons_self t rest) head hh)
    obtain ⟨hr1, hr2, hr3, hr4⟩ := ih fuel (scanTick cfg fuel cur t.1 t.2).2 ht4
      (fun p hp head hh => hticks p (List.mem_cons_of_mem t hp) head hh)
    have hrun : scanRun cfg fuel cur (t :: rest) =
        ((scanTick cfg fuel cur t.1 t.2).1 ++
          (scanRun cfg fuel (scanTick cfg fuel cur t.1 t.2).2 rest).1,
         (scanRun cfg fuel (scanTick cfg fuel cur t.1 t.2).2 rest).2) := by
      simp [scanRun]
    rw [hrun]
    refine ⟨?_, ?_, by dsimp only; omega, by dsimp only; exact hr4⟩
    · intro e he
      rcases List.mem_append.mp he with he' | he'
      · obtain ⟨h1, h2, h3⟩ := ht1 e he'
        exact ⟨h1, h2, by dsimp only; omega⟩
      · obtain ⟨h1, h2, h3⟩ := hr1 e he'
        exact ⟨h1, by omega, h3⟩
    · rw [List.map_append]
      refine chain'_le_append (scanTick cfg fuel cur t.1 t.2).2 ht2 hr2
        (fun x hx => ?_) (fun y hy => ?_)
      · obtain ⟨e, hem, hesave⟩ := List.mem_map.mp hx
        obtain ⟨-, -, h3⟩ := ht1 e hem
        omega
      · obtain ⟨e, hem, hesave⟩ := List.mem_map.mp hy
        obtain ⟨-, h2, -⟩ := hr1 e hem
        omega

/-- C1: over any run of the scan loop in which each fetched head is at
least `reorgSafe` and leaves room for one batch below `2^64` (no
`uint64` wraparound), every value handed to `SaveCursor` after a
successful `scanRange(from, end)` equals `end + 1`, and the sequence
of persisted cursor values is monotone non-decreasing. -/
theorem cursor_saves_correct (cfg : ScanCfg) (fuel cur0 : Nat)
    (ticks : List (Option Nat × (Nat → Bool)))
    (hb : 1 ≤ cfg.batchSize) (hcur : cur0 < U64)
    (hticks : ∀ p ∈ ticks, ∀ head, p.1 = some head →
      cfg.reorgSafe ≤ head ∧ head + cfg.batchSize < U64) :
    (∀ e ∈ (scanRun cfg fuel cur0 ticks).1, e.save = e.toB + 1) ∧
    List.Chain' (· ≤ ·) ((scanRun cfg fuel cur0 ticks).1.map RangeEvent.save) := by
  obtain ⟨h1, h2, -, -⟩ := scanRun_spec cfg hb ticks fuel cur0 hcur hticks
  exact ⟨fun e he => (h1 e he).1, h2⟩

/-- C1 witness: a concrete three-tick run (two successful batched
ranges, a failed head fetch, a tick whose first `scanRange` fails)
saving cursors 2 then 4, each equal to its range's `end + 1` and
non-decreasing. -/
theorem cursor_saves_correct_witness :
    (∀ e ∈ (scanRun ⟨2, 1⟩ 5 0
        [(some 4, fun _ => true), (none, fun _ => true), (some 7, fun _ => false)]).1,
      e.save = e.toB + 1) ∧
    List.Chain' (· ≤ ·) ((scanRun ⟨2, 1⟩ 5 0
        [(some 4, fun _ => true), (none, fun _ => true), (some 7, fun _ => false)]).1.map
      RangeEvent.save) := by
  refine cursor_saves_correct ⟨2, 1⟩ 5 0 _ (by decide) (by decide) ?_
  intro p hp head hph
  cases hp with
  | head =>
    simp at hph
    subst hph
    exact ⟨by decide, by decide⟩
  | tail _ hp2 =>
    cases hp2 with
    | head => simp at hph
    | tail _ hp3 =>
      cases hp3 with
      | head =>
        simp at hph
        subst hph
        exact ⟨by decide, by decide⟩
      | tail _ hp4 => cases hp4

end EvmScanner
